import Mathlib

/-!
Verification of `libchrome_tools/update_libchrome.py`.

The script is a three-stage batch pipeline:
- `_clean_existing_dir` removes prior output content except preserved entries;
- `_import_files` copies the files tracked by git (minus a glob blacklist)
  from an upstream Chromium checkout into the output tree;
- `_apply_patch_files` applies each `*.patch` file via the external `patch`
  tool, aborting on the first failure.

The embedding below models paths as lists of characters, the filesystem of the
output tree as an association list from relative paths to file data (content,
mtime, permission bits; directories are implicit as path prefixes), and the
external world (git index, upstream checkout, patch-directory listing, the
`patch` tool) as an explicit environment of functions.
-/

namespace UpdateLibchrome

/-- A relative file path, as the list of its characters ('/'-separated). -/
abbrev Path := List Char

/-- All suffixes of a list, longest first, down to and including `[]`. -/
def suffixes : Path → List Path
  | [] => [[]]
  | c :: cs => (c :: cs) :: suffixes cs

/-- Anchored matching of one `fnmatch`-style pattern against a whole path,
as performed by `re.match` on `fnmatch.translate(pattern)` joined with the
terminating anchor: `*` matches any character sequence (including `/`),
`?` matches exactly one character, every other character matches itself
literally.  (`[...]` character classes are not modelled; the blacklist of the
script contains none.) -/
def globMatch : Path → Path → Bool
  | [], s => s.isEmpty
  | c :: ps, s =>
    if c = '*' then (suffixes s).any (fun r => globMatch ps r)
    else if c = '?' then
      match s with
      | [] => false
      | _ :: cs => globMatch ps cs
    else
      match s with
      | [] => false
      | d :: cs => (c == d) && globMatch ps cs

/-- Files which are in the repository, but should not be imported from the
Chrome repository (`_IMPORT_BLACKLIST` in the script, verbatim). -/
def _IMPORT_BLACKLIST : List String := [
    "Android.bp",
    "MODULE_LICENSE_BSD",
    "NOTICE",
    "OWNERS",
    "SConstruct",
    "testrunner.cc",
    "libchrome_tools/*",
    "base/allocator/features.h",
    "base/debug/debugging_flags.h",
    "base/third_party/libevent/*",
    "base/third_party/symbolize/*",
    "testing/gmock/*",
    "testing/gtest/*",
    "third_party/*"]

/-- `exclude_pattern.match(filepath)` of the script: the path matches some
blacklist pattern (each alternative is fully anchored by
`fnmatch.translate`). -/
def excludedByBlacklist (p : Path) : Bool :=
  _IMPORT_BLACKLIST.any (fun pat => globMatch pat.toList p)

/-- `_TOOLS_DIR`: absolute location of the script's own directory (in the
script, `os.path.dirname(os.path.realpath(__file__))`); an opaque constant of
the run, modelled by a fixed absolute path. -/
def _TOOLS_DIR : String := "/libchrome/libchrome_tools"

/-- `_LIBCHROME_ROOT`: the parent directory of `_TOOLS_DIR`, i.e. the root of
the repository the script itself lives in. -/
def _LIBCHROME_ROOT : String := "/libchrome"

/-- Data copied by `shutil.copy2`: file content plus metadata (modification
time and permission bits). -/
structure FileMeta where
  content : List Nat
  mtime : Nat
  mode : Nat
deriving DecidableEq

/-- The output tree: whether its root directory exists, the permission bits of
the root, and the files it holds, keyed by relative path.  Directories are
implicit as proper prefixes of file paths. -/
structure OutTree where
  rootExists : Bool
  rootMode : Nat
  files : List (Path × FileMeta)
deriving DecidableEq

/-- The external world as seen by the script:
- `lsTree r` — the output of `git ls-tree -r --name-only --full-name HEAD`
  run with working directory `r` (the tracked paths of the repository at `r`);
- `upstreamFile r p` — the file found at path `p` under the checkout rooted
  at `r`, if any;
- `patchFilesOf d` — identifiers of the `*.patch` files that
  `glob.iglob(os.path.join(d, "*.patch"))` yields, in enumeration order;
- `applyPatch q t` — the result of the external `patch -p1` process for patch
  `q` on tree `t`: the transformed tree, or `none` for a non-zero exit. -/
structure Env where
  lsTree : String → List Path
  upstreamFile : String → Path → Option FileMeta
  patchFilesOf : String → List Nat
  applyPatch : Nat → OutTree → Option OutTree

/-- `_find_target_files`: the paths tracked by git in `_LIBCHROME_ROOT`
(note: not in the output root option), minus those matching the blacklist. -/
def _find_target_files (env : Env) : List Path :=
  (env.lsTree _LIBCHROME_ROOT).filter (fun p => !excludedByBlacklist p)

/-- The top-level names the cleaner never removes. -/
def preservedTop : List Path := [".git".toList, "libchrome_tools".toList]

/-- The first path segment: characters before the first '/'. -/
def firstSeg (p : Path) : Path := p.takeWhile (fun c => c != '/')

/-- Whether `_clean_existing_dir` keeps an entry at path `p`: entries directly
in the root (no '/', hence not directories in this model) are skipped, as are
entries under a preserved top-level name. -/
def keptByClean (p : Path) : Bool :=
  !(p.contains '/') || preservedTop.contains (firstSeg p)

/-- `_clean_existing_dir`: `os.makedirs(output_root, mode=0o755, exist_ok=True)`
followed by `shutil.rmtree` of every immediate child directory whose name is
not `.git` or `libchrome_tools`. -/
def _clean_existing_dir (t : OutTree) : OutTree :=
  { rootExists := true,
    rootMode := if t.rootExists then t.rootMode else 0o755,
    files := t.files.filter (fun f => keptByClean f.1) }

/-- Look up the file stored at path `p`. -/
def lookupFile (files : List (Path × FileMeta)) (p : Path) : Option FileMeta :=
  (files.find? (fun f => f.1 == p)).map (fun f => f.2)

/-- Store `m` at path `p`, overwriting any previous entry (`shutil.copy2`
overwrites an existing destination). -/
def insertFile (files : List (Path × FileMeta)) (p : Path) (m : FileMeta) :
    List (Path × FileMeta) :=
  (p, m) :: files.filter (fun f => !(f.1 == p))

/-- Resolve a target path against the `--chromium_root` option.  When the
option was omitted the script holds `None` and `os.path.join(None, filepath)`
raises at the copy step; this is modelled as the lookup failing. -/
def upstreamLookup (env : Env) (root : Option String) (p : Path) :
    Option FileMeta :=
  match root with
  | none => none
  | some r => env.upstreamFile r p

/-- The copy loop of `_import_files`: for each target path in order, copy the
upstream file (content and metadata) to the same relative path in the output
tree; a missing upstream file aborts at that point, the error carrying the
failing path and the tree state reached so far. -/
def importFiles (env : Env) (root : Option String) :
    List Path → OutTree → Except (Path × OutTree) OutTree
  | [], t => .ok t
  | p :: rest, t =>
    match upstreamLookup env root p with
    | none => .error (p, t)
    | some m => importFiles env root rest { t with files := insertFile t.files p m }

/-- `_import_files`: copy every path of `_find_target_files` from the upstream
root into the output tree. -/
def _import_files (env : Env) (root : Option String) (t : OutTree) :
    Except (Path × OutTree) OutTree :=
  importFiles env root (_find_target_files env) t

/-- The patch loop of `_apply_patch_files`: apply each patch in order via the
external `patch -p1` process (`subprocess.check_call` raises on non-zero
exit).  Returns the list of patches actually attempted together with the
outcome; a failure carries the failing patch and the tree it was attempted
on (already-applied patches are not rolled back). -/
def applyPatchFiles (env : Env) :
    List Nat → OutTree → List Nat × Except (Nat × OutTree) OutTree
  | [], t => ([], .ok t)
  | q :: rest, t =>
    match env.applyPatch q t with
    | none => ([q], .error (q, t))
    | some t2 =>
      (q :: (applyPatchFiles env rest t2).1, (applyPatchFiles env rest t2).2)

/-- `_apply_patch_files`: apply the patch files enumerated in the patch
directory. -/
def _apply_patch_files (env : Env) (patch_dir : String) (t : OutTree) :
    List Nat × Except (Nat × OutTree) OutTree :=
  applyPatchFiles env (env.patchFilesOf patch_dir) t

/-- The command line: which of the three options were supplied. -/
structure CmdLine where
  chromium_root : Option String
  output_root : Option String
  patch_dir : Option String

/-- The parsed arguments (`argparse` namespace). -/
structure Args where
  chromium_root : Option String
  output_root : String
  patch_dir : String

/-- `_parse_args`: `--chromium_root` has no default (it stays `None` when
omitted); `--output_root` defaults to `_LIBCHROME_ROOT`; `--patch_dir`
defaults to `os.path.join(_TOOLS_DIR, "patch")`.  Parsing never rejects an
absent `--chromium_root`. -/
def _parse_args (c : CmdLine) : Args :=
  { chromium_root := c.chromium_root,
    output_root := c.output_root.getD _LIBCHROME_ROOT,
    patch_dir := c.patch_dir.getD (_TOOLS_DIR ++ "/patch") }

/-- The three pipeline stages, in the order `main` starts them. -/
inductive StageTag where
  | cleaner
  | importer
  | patcher
deriving DecidableEq

/-- Process exit code of a run outcome: 0 on success, 1 on an uncaught
exception. -/
def exitCode {ε α : Type} : Except ε α → Nat
  | .ok _ => 0
  | .error _ => 1

/-- `main`: parse arguments, then run cleaner, importer and patcher strictly
in that order, each stage receiving the full result of the previous one; an
uncaught exception in a stage ends the run there.  The first component lists
the stages that were started. -/
def main (env : Env) (c : CmdLine) (t : OutTree) :
    List StageTag × Except OutTree OutTree :=
  match _import_files env (_parse_args c).chromium_root (_clean_existing_dir t) with
  | .error e => ([.cleaner, .importer], .error e.2)
  | .ok t2 =>
    match _apply_patch_files env (_parse_args c).patch_dir t2 with
    | (_, .error e) => ([.cleaner, .importer, .patcher], .error e.2)
    | (_, .ok t3) => ([.cleaner, .importer, .patcher], .ok t3)

/-- The target file list as the SPEC describes it: derived from the
version-control index of the tree designated by the output-root option.
Stated from the spec's words only, to be compared with `_find_target_files`
(which queries `_LIBCHROME_ROOT` instead). -/
def specTargetFilesOfOutputRoot (env : Env) (output_root : String) : List Path :=
  (env.lsTree output_root).filter (fun p => !excludedByBlacklist p)

/-- Whether a directory at relative path `d` exists in the (implicit-directory)
model: some file lives strictly below `d`. -/
def dirExistsUnder (files : List (Path × FileMeta)) (d : Path) : Bool :=
  files.any (fun f => f.1.take (d.length + 1) == d ++ ['/'])

/-! Concrete fixtures used by the closed instances below. -/

/-- Sample file data (content bytes, mtime, permission bits). -/
def metaA : FileMeta := ⟨[104, 105], 11, 420⟩

/-- A tracked path that matches no blacklist pattern. -/
def pBase : Path := "base/foo.cc".toList

/-- An existing, empty output tree. -/
def tEmpty : OutTree := ⟨true, 0o755, []⟩

/-- An output tree holding one file under the version-control directory. -/
def tGit : OutTree := ⟨true, 0o755, [(".git/config".toList, metaA)]⟩

/-- An output tree holding one file under the tool's own directory. -/
def tTools : OutTree := ⟨true, 0o755, [("libchrome_tools/update_libchrome.py".toList, metaA)]⟩

/-- The tree reached after importing `pBase` into `tEmpty`. -/
def treeAfterImport : OutTree := ⟨true, 0o755, [(pBase, metaA)]⟩

/-- The spec's scenario: upstream tracks `third_party/zlib/x.c` and
`base/foo.cc`. -/
def envScenario : Env :=
  ⟨fun _ => ["third_party/zlib/x.c".toList, pBase], fun _ _ => none,
   fun _ => [], fun _ _ => none⟩

/-- One tracked target, present upstream; no patches. -/
def envUp : Env :=
  ⟨fun _ => [pBase], fun _ _ => some metaA, fun _ => [], fun _ _ => none⟩

/-- One tracked target, absent upstream. -/
def envMissing : Env :=
  ⟨fun _ => [pBase], fun _ _ => none, fun _ => [], fun _ _ => none⟩

/-- No targets; a single patch file whose application fails. -/
def envPatchFail : Env :=
  ⟨fun _ => [], fun _ _ => none, fun _ => [0], fun _ _ => none⟩

/-- Git indices that differ between `_LIBCHROME_ROOT` and any other root. -/
def envDiff : Env :=
  ⟨fun r => if r = _LIBCHROME_ROOT then ["base/a.cc".toList] else ["base/b.cc".toList],
   fun _ _ => none, fun _ => [], fun _ _ => none⟩

/-- Command line with no option supplied. -/
def cNone : CmdLine := ⟨none, none, none⟩

/-- Command line supplying only `--chromium_root`. -/
def cChromium : CmdLine := ⟨some "/chromium", none, none⟩

/-- Command line supplying only `--output_root`, pointing away from
`_LIBCHROME_ROOT`. -/
def cOther : CmdLine := ⟨none, some "/other", none⟩

/-! Helper lemmas about the glob matcher. -/

theorem suffixes_any_isEmpty (q : Path) :
    (suffixes q).any (fun r => r.isEmpty) = true := by
  induction q with
  | nil => rfl
  | cons c cs ih => simp [suffixes, ih]

theorem globMatch_star_nil (q : Path) : globMatch ['*'] q = true := by
  show (suffixes q).any (fun r => globMatch [] r) = true
  exact suffixes_any_isEmpty q

theorem globMatch_cons (c : Char) (ps s : Path) :
    globMatch (c :: ps) s =
      if c = '*' then (suffixes s).any (fun r => globMatch ps r)
      else if c = '?' then
        (match s with
         | [] => false
         | _ :: cs => globMatch ps cs)
      else
        (match s with
         | [] => false
         | d :: cs => (c == d) && globMatch ps cs) := rfl

theorem globMatch_lit_cons (c : Char) (ps : Path) (d : Char) (cs : Path)
    (hstar : c ≠ '*') (hq : c ≠ '?') :
    globMatch (c :: ps) (d :: cs) = ((c == d) && globMatch ps cs) := by
  rw [globMatch_cons, if_neg hstar, if_neg hq]

theorem globMatch_lit_nil (c : Char) (ps : Path)
    (hstar : c ≠ '*') (hq : c ≠ '?') :
    globMatch (c :: ps) [] = false := by
  rw [globMatch_cons, if_neg hstar, if_neg hq]

theorem globMatch_no_wildcard (pat : Path) :
    ∀ p : Path, pat.contains '*' = false → pat.contains '?' = false →
      (globMatch pat p = true ↔ pat = p) := by
  induction pat with
  | nil =>
    intro p _ _
    constructor
    · intro h
      have h2 : p.isEmpty = true := h
      rw [List.isEmpty_iff] at h2
      rw [h2]
    · intro h
      rw [← h]
      rfl
  | cons c ps ih =>
    intro p hstar hq
    have hstar2 : ¬(c = '*' ∨ ps.contains '*' = true) := by
      intro hc
      simp [List.contains_cons] at hstar
      rcases hc with hc | hc
      · exact hstar.1 hc.symm
      · simp at hc
        exact hstar.2 hc
    have hq2 : ¬(c = '?' ∨ ps.contains '?' = true) := by
      intro hc
      simp [List.contains_cons] at hq
      rcases hc with hc | hc
      · exact hq.1 hc.symm
      · simp at hc
        exact hq.2 hc
    have hcs : c ≠ '*' := fun h => hstar2 (Or.inl h)
    have hcq : c ≠ '?' := fun h => hq2 (Or.inl h)
    have hps : ps.contains '*' = false := by
      cases h : ps.contains '*' with
      | false => rfl
      | true => exact absurd (Or.inr h) hstar2
    have hpq : ps.contains '?' = false := by
      cases h : ps.contains '?' with
      | false => rfl
      | true => exact absurd (Or.inr h) hq2
    cases p with
    | nil =>
      rw [globMatch_lit_nil c ps hcs hcq]
      simp
    | cons d cs =>
      rw [globMatch_lit_cons c ps d cs hcs hcq]
      rw [Bool.and_eq_true, beq_iff_eq]
      rw [ih cs hps hpq]
      simp

theorem globMatch_lit_star (lit : Path) :
    ∀ q : Path, (∀ c ∈ lit, c ≠ '*' ∧ c ≠ '?') →
      globMatch (lit ++ ['*']) (lit ++ q) = true := by
  induction lit with
  | nil => intro q _; exact globMatch_star_nil q
  | cons c cs ih =>
    intro q h
    have hc := h c (List.mem_cons_self c cs)
    rw [List.cons_append, List.cons_append,
      globMatch_lit_cons c (cs ++ ['*']) c (cs ++ q) hc.1 hc.2]
    rw [beq_self_eq_true, Bool.true_and]
    exact ih q (fun d hd => h d (List.mem_cons_of_mem c hd))

theorem excluded_under_libchrome_tools (q : Path) :
    excludedByBlacklist ("libchrome_tools/".toList ++ q) = true := by
  unfold excludedByBlacklist
  apply List.any_eq_true.mpr
  refine ⟨"libchrome_tools/*", by decide, ?_⟩
  have h1 : ("libchrome_tools/*").toList = "libchrome_tools/".toList ++ ['*'] := rfl
  rw [h1]
  exact globMatch_lit_star ("libchrome_tools/".toList) q (by decide)

theorem excludedByBlacklist_eq_false_iff (p : Path) :
    excludedByBlacklist p = false ↔
      ∀ b ∈ _IMPORT_BLACKLIST, globMatch b.toList p = false := by
  unfold excludedByBlacklist
  rw [← Bool.not_eq_true, List.any_eq_true]
  constructor
  · intro h b hb
    cases hm : globMatch b.toList p with
    | false => rfl
    | true => exact absurd ⟨b, hb, hm⟩ h
  · rintro h ⟨b, hb, hm⟩
    rw [h b hb] at hm
    cases hm

/-! Helper lemmas about lookup, filtering and insertion. -/

theorem find?_filter_eq {α : Type} (l : List α) (q g : α → Bool)
    (h : ∀ x, q x = true → g x = true) :
    (l.filter g).find? q = l.find? q := by
  induction l with
  | nil => rfl
  | cons a l ih =>
    by_cases hq : q a = true
    · rw [List.filter_cons_of_pos (h a hq), List.find?_cons_of_pos _ hq,
        List.find?_cons_of_pos _ hq]
    · have hq2 : q a = false := by
        cases hqa : q a with
        | false => rfl
        | true => exact absurd hqa hq
      by_cases hg : g a = true
      · rw [List.filter_cons_of_pos hg, List.find?_cons_of_neg _ (by rw [hq2]; exact Bool.false_ne_true),
          List.find?_cons_of_neg _ (by rw [hq2]; exact Bool.false_ne_true), ih]
      · have hg2 : g a = false := by
          cases hga : g a with
          | false => rfl
          | true => exact absurd hga hg
        rw [List.filter_cons_of_neg (by rw [hg2]; exact Bool.false_ne_true),
          List.find?_cons_of_neg _ (by rw [hq2]; exact Bool.false_ne_true), ih]

theorem clean_lookup_preserved (t : OutTree) (p : Path)
    (hk : keptByClean p = true) :
    lookupFile (_clean_existing_dir t).files p = lookupFile t.files p := by
  unfold lookupFile _clean_existing_dir
  rw [find?_filter_eq]
  intro x hx
  have hxp : x.1 = p := by simpa using hx
  rw [hxp]
  exact hk

theorem lookupFile_insert_self (files : List (Path × FileMeta)) (p : Path)
    (m : FileMeta) :
    lookupFile (insertFile files p m) p = some m := by
  unfold lookupFile insertFile
  rw [List.find?_cons_of_pos _ (by simp)]
  rfl

theorem lookupFile_insert_ne (files : List (Path × FileMeta)) (p r : Path)
    (m : FileMeta) (h : r ≠ p) :
    lookupFile (insertFile files p m) r = lookupFile files r := by
  unfold lookupFile insertFile
  rw [List.find?_cons_of_neg _ (by simp; exact fun he => h he.symm)]
  rw [find?_filter_eq]
  intro x hx
  have hxr : x.1 = r := by simpa using hx
  simp [hxr, h]

theorem lookupFile_some_mem (files : List (Path × FileMeta)) (p : Path)
    (m : FileMeta) (h : lookupFile files p = some m) : (p, m) ∈ files := by
  unfold lookupFile at h
  cases hf : files.find? (fun f => f.1 == p) with
  | none => rw [hf] at h; cases h
  | some f =>
    rw [hf] at h
    have hmem := List.mem_of_find?_eq_some hf
    have hpp := List.find?_some hf
    have h1 : f.1 = p := by simpa using hpp
    have h2 : f.2 = m := by simpa using h
    have h3 : f = (p, m) := by
      cases f
      simp_all
    rw [← h3]
    exact hmem

/-! Helper lemmas about the import loop. -/

theorem importFiles_ok_lookup_not_mem (env : Env) (root : Option String)
    (targets : List Path) :
    ∀ (t t' : OutTree) (p : Path), p ∉ targets →
      importFiles env root targets t = .ok t' →
      lookupFile t'.files p = lookupFile t.files p := by
  induction targets with
  | nil =>
    intro t t' p _ h
    cases h
    rfl
  | cons q rest ih =>
    intro t t' p hp h
    simp only [importFiles] at h
    cases hu : upstreamLookup env root q with
    | none => rw [hu] at h; cases h
    | some m =>
      rw [hu] at h
      have h2 := ih _ t' p (fun hm => hp (List.mem_cons_of_mem q hm)) h
      rw [h2]
      exact lookupFile_insert_ne t.files q p m
        (fun he => hp (by rw [he]; exact List.mem_cons_self q rest))

theorem importFiles_ok_lookup_mem (env : Env) (root : Option String)
    (targets : List Path) :
    ∀ (t t' : OutTree) (p : Path), p ∈ targets →
      importFiles env root targets t = .ok t' →
      ∃ m, upstreamLookup env root p = some m ∧ lookupFile t'.files p = some m := by
  induction targets with
  | nil => intro t t' p hp _; cases hp
  | cons q rest ih =>
    intro t t' p hp h
    simp only [importFiles] at h
    cases hu : upstreamLookup env root q with
    | none => rw [hu] at h; cases h
    | some m =>
      rw [hu] at h
      by_cases hpr : p ∈ rest
      · exact ih _ t' p hpr h
      · have hpq : p = q := by
          rcases List.mem_cons.mp hp with h1 | h2
          · exact h1
          · exact absurd h2 hpr
        subst hpq
        refine ⟨m, hu, ?_⟩
        have h2 := importFiles_ok_lookup_not_mem env root rest _ t' p hpr h
        rw [h2]
        exact lookupFile_insert_self t.files p m

theorem importFiles_error_first_missing (env : Env) (root : Option String)
    (pre : List Path) (bad : Path) (post : List Path) :
    ∀ t : OutTree, (∀ q ∈ pre, (upstreamLookup env root q).isSome = true) →
      upstreamLookup env root bad = none →
      ∃ te, importFiles env root (pre ++ bad :: post) t = .error (bad, te)
        ∧ ∀ r, r ∉ pre → lookupFile te.files r = lookupFile t.files r := by
  induction pre with
  | nil =>
    intro t _ hbad
    refine ⟨t, ?_, ?_⟩
    · simp only [List.nil_append, importFiles]
      rw [hbad]
    · intro r _
      rfl
  | cons q pre ih =>
    intro t hpre hbad
    have hq := hpre q (List.mem_cons_self q pre)
    cases hu : upstreamLookup env root q with
    | none => rw [hu] at hq; cases hq
    | some m =>
      obtain ⟨te, h1, h2⟩ := ih { t with files := insertFile t.files q m }
        (fun r hr => hpre r (List.mem_cons_of_mem q hr)) hbad
      refine ⟨te, ?_, ?_⟩
      · simp only [List.cons_append, importFiles]
        rw [hu]
        exact h1
      · intro r hr
        have hrq : r ≠ q := fun he => hr (he ▸ List.mem_cons_self q pre)
        rw [h2 r (fun hm => hr (List.mem_cons_of_mem q hm))]
        exact lookupFile_insert_ne t.files q r m hrq

/-! Helper lemma about the patch loop. -/

theorem applyPatchFiles_append_ok (env : Env) (pre : List Nat) :
    ∀ (rest : List Nat) (t t1 : OutTree),
      applyPatchFiles env pre t = (pre, .ok t1) →
      applyPatchFiles env (pre ++ rest) t =
        (pre ++ (applyPatchFiles env rest t1).1,
         (applyPatchFiles env rest t1).2) := by
  induction pre with
  | nil =>
    intro rest t t1 h
    simp only [applyPatchFiles] at h
    have ht : t = t1 := by
      have h2 := congrArg Prod.snd h
      simpa using h2
    subst ht
    simp
  | cons q pre ih =>
    intro rest t t1 h
    simp only [applyPatchFiles] at h
    cases hu : env.applyPatch q t with
    | none =>
      rw [hu] at h
      have h2 := congrArg Prod.snd h
      simp at h2
    | some t2 =>
      rw [hu] at h
      have h1 : (applyPatchFiles env pre t2).1 = pre := by
        have h3 := congrArg Prod.fst h
        simpa using h3
      have h2 : (applyPatchFiles env pre t2).2 = .ok t1 := by
        have h3 := congrArg Prod.snd h
        simpa using h3
      have hp : applyPatchFiles env pre t2 = (pre, .ok t1) :=
        Prod.ext_iff.mpr ⟨h1, h2⟩
      have hgoal : applyPatchFiles env ((q :: pre) ++ rest) t =
          (q :: (applyPatchFiles env (pre ++ rest) t2).1,
           (applyPatchFiles env (pre ++ rest) t2).2) := by
        rw [List.cons_append]
        simp only [applyPatchFiles]
        rw [hu]
      rw [hgoal, ih rest t2 t1 hp]
      simp

theorem keptByClean_iff (p : Path) :
    keptByClean p = true ↔
      (p.contains '/' = false ∨ firstSeg p ∈ preservedTop) := by
  unfold keptByClean
  rw [Bool.or_eq_true, Bool.not_eq_true']
  constructor
  · rintro (h | h)
    · exact Or.inl h
    · exact Or.inr (by simpa using h)
  · rintro (h | h)
    · exact Or.inl h
    · exact Or.inr (by simpa using h)

/-! The claims. -/

/-- C1: a path from the version-control enumeration appears in the target file
list iff it matches no blacklist pattern; matching is anchored to the full
relative path (a pattern without wildcards or character classes matches only
the exact path), and in the spec's scenario (the blacklist contains
`third_party/*`, the tracked paths are `third_party/zlib/x.c` and
`base/foo.cc`) the target list is exactly `base/foo.cc`, so `*` spans
multiple path segments. -/
theorem c1_target_list_blacklist (env : Env) (p pat : Path)
    (hp : p ∈ env.lsTree _LIBCHROME_ROOT)
    (hstar : pat.contains '*' = false) (hq : pat.contains '?' = false)
    (_hbr : pat.contains '[' = false) :
    (p ∈ _find_target_files env ↔
      ∀ b ∈ _IMPORT_BLACKLIST, globMatch b.toList p = false)
    ∧ (globMatch pat p = true ↔ pat = p)
    ∧ _find_target_files envScenario = ["base/foo.cc".toList] := by
  refine ⟨?_, globMatch_no_wildcard pat p hstar hq, by decide⟩
  unfold _find_target_files
  rw [List.mem_filter]
  constructor
  · rintro ⟨_, h2⟩
    exact (excludedByBlacklist_eq_false_iff p).mp (by simpa using h2)
  · intro h
    refine ⟨hp, ?_⟩
    simpa using (excludedByBlacklist_eq_false_iff p).mpr h

/-- C1 witness: the scenario path base/foo.cc is in the target list. -/
theorem c1_target_list_blacklist_witness :
    pBase ∈ _find_target_files envScenario :=
  (c1_target_list_blacklist envScenario pBase ("Android.bp".toList)
      (by decide) (by decide) (by decide) (by decide)).1.mpr (by decide)

/-- C2: after a successful run of the importer, every path of the target file
list holds a file whose content and metadata (mtime, permission bits) are
those of the upstream file at the same path, and every intermediate directory
of the path exists in the output tree. -/
theorem c2_import_copies (env : Env) (root : Option String) (t t' : OutTree)
    (p : Path) (h : _import_files env root t = .ok t')
    (hp : p ∈ _find_target_files env) :
    ∃ m, upstreamLookup env root p = some m
      ∧ lookupFile t'.files p = some m
      ∧ ∀ d r, p = d ++ '/' :: r → dirExistsUnder t'.files d = true := by
  obtain ⟨m, hm, hl⟩ :=
    importFiles_ok_lookup_mem env root (_find_target_files env) t t' p hp h
  refine ⟨m, hm, hl, ?_⟩
  intro d r hd
  have hmem : (p, m) ∈ t'.files := lookupFile_some_mem t'.files p m hl
  unfold dirExistsUnder
  apply List.any_eq_true.mpr
  refine ⟨(p, m), hmem, ?_⟩
  subst hd
  have h1 : (d ++ '/' :: r).take (d.length + 1) = d ++ ['/'] := by
    rw [List.take_append_eq_append_take,
      List.take_of_length_le (Nat.le_add_right d.length 1)]
    simp
  simp [h1]

/-- C2 witness: the concrete import of base/foo.cc carries its file data
across. -/
theorem c2_import_copies_witness :
    lookupFile treeAfterImport.files pBase = some metaA := by
  obtain ⟨m, hm, hl, _⟩ :=
    c2_import_copies envUp (some "/chromium") tEmpty treeAfterImport pBase rfl
      (by decide)
  have h0 : upstreamLookup envUp (some "/chromium") pBase = some metaA := rfl
  rw [h0] at hm
  rw [hl, Option.some.inj hm]

/-- C3 counterexample: `_find_target_files` always queries the git index of
`_LIBCHROME_ROOT`; with indices that differ between `_LIBCHROME_ROOT` and the
directory named by `--output_root`, the target list is not the filtered index
of the output tree, refuting the claim as stated. -/
theorem c3_counterexample :
    ¬ ∀ (env : Env) (c : CmdLine),
        _find_target_files env =
          specTargetFilesOfOutputRoot env (_parse_args c).output_root := by
  intro h
  have h2 := h envDiff cOther
  revert h2
  decide

/-- C3 (amended): the target file list is derived once per run from the
version-control index of the tool's own repository root `_LIBCHROME_ROOT`
(not from the filesystem); this coincides with the index of the output tree
exactly when the `--output_root` option is left at its default. -/
theorem c3_amended_target_list_source (env : Env) (c : CmdLine) :
    _find_target_files env = specTargetFilesOfOutputRoot env _LIBCHROME_ROOT
    ∧ (c.output_root = none →
        (_parse_args c).output_root = _LIBCHROME_ROOT
        ∧ _find_target_files env =
            specTargetFilesOfOutputRoot env (_parse_args c).output_root) := by
  refine ⟨rfl, ?_⟩
  intro h
  have h1 : (_parse_args c).output_root = _LIBCHROME_ROOT := by
    simp [_parse_args, h]
  refine ⟨h1, ?_⟩
  rw [h1]
  rfl

/-- C3 witness: with no --output_root supplied the default root applies and
the two derivations agree. -/
theorem c3_amended_witness :
    (_parse_args cNone).output_root = _LIBCHROME_ROOT :=
  ((c3_amended_target_list_source envDiff cNone).2 rfl).1

/-- C5: the cleaner makes the root directory exist (permission bits 0o755
when it was absent, untouched otherwise), keeps exactly the root-level files
and the entries under the preserved names `.git` and `libchrome_tools`, and
on a missing root creates it and completes without error. -/
theorem c5_cleaner_contract (t : OutTree) :
    (_clean_existing_dir t).rootExists = true
    ∧ (t.rootExists = false → (_clean_existing_dir t).rootMode = 0o755)
    ∧ (∀ p m, ((p, m) ∈ (_clean_existing_dir t).files ↔
        (p, m) ∈ t.files ∧ (p.contains '/' = false ∨ firstSeg p ∈ preservedTop)))
    ∧ _clean_existing_dir ⟨false, 0, []⟩ = ⟨true, 0o755, []⟩ := by
  refine ⟨rfl, ?_, ?_, rfl⟩
  · intro h
    simp [_clean_existing_dir, h]
  · intro p m
    simp only [_clean_existing_dir, List.mem_filter]
    rw [keptByClean_iff]

/-- C5 witness: cleaning a missing root creates it with mode 0o755. -/
theorem c5_cleaner_contract_witness :
    (_clean_existing_dir ⟨false, 0, []⟩).rootMode = 0o755 :=
  (c5_cleaner_contract ⟨false, 0, []⟩).2.1 rfl

/-- C9: the cleaner is idempotent (a second run reproduces the state after
the first), and contents under the preserved directories are untouched by
both the first and the second run. -/
theorem c9_cleaner_idempotent (t : OutTree) :
    _clean_existing_dir (_clean_existing_dir t) = _clean_existing_dir t
    ∧ ∀ p m, firstSeg p ∈ preservedTop →
        (((p, m) ∈ (_clean_existing_dir t).files ↔ (p, m) ∈ t.files)
        ∧ ((p, m) ∈ (_clean_existing_dir (_clean_existing_dir t)).files ↔
            (p, m) ∈ t.files)) := by
  have hmem : ∀ (p : Path) (m : FileMeta), firstSeg p ∈ preservedTop →
      ∀ l : List (Path × FileMeta),
        ((p, m) ∈ l.filter (fun f => keptByClean f.1) ↔ (p, m) ∈ l) := by
    intro p m hp l
    rw [List.mem_filter]
    have hk : keptByClean p = true := (keptByClean_iff p).mpr (Or.inr hp)
    simp [hk]
  constructor
  · unfold _clean_existing_dir
    simp [List.filter_filter]
  · intro p m hp
    exact ⟨hmem p m hp t.files, (hmem p m hp _).trans (hmem p m hp t.files)⟩

/-- C9 witness: a file under .git survives the cleaner. -/
theorem c9_cleaner_idempotent_witness :
    (".git/config".toList, metaA) ∈ (_clean_existing_dir tGit).files ↔
      (".git/config".toList, metaA) ∈ tGit.files :=
  ((c9_cleaner_idempotent tGit).2 (".git/config".toList) metaA (by decide)).1

theorem main_eq_of_import_ok (env : Env) (c : CmdLine) (t t2 : OutTree)
    (himp : _import_files env (_parse_args c).chromium_root
        (_clean_existing_dir t) = .ok t2) :
    main env c t =
      (match _apply_patch_files env (_parse_args c).patch_dir t2 with
       | (_, .error e) =>
          ([StageTag.cleaner, StageTag.importer, StageTag.patcher], .error e.2)
       | (_, .ok t3) =>
          ([StageTag.cleaner, StageTag.importer, StageTag.patcher], .ok t3)) := by
  unfold main
  rw [himp]

/-- C6: if a target path is missing upstream, the import aborts at exactly
that path: every path outside the already-copied prefix is untouched (no
partial-success continuation past the failure), and the run ends at the
importer stage with an error. -/
theorem c6_missing_upstream_aborts (env : Env) (c : CmdLine) (t : OutTree)
    (pre : List Path) (bad : Path) (post : List Path)
    (hlist : _find_target_files env = pre ++ bad :: post)
    (hpre : ∀ q ∈ pre,
      (upstreamLookup env (_parse_args c).chromium_root q).isSome = true)
    (hbad : upstreamLookup env (_parse_args c).chromium_root bad = none) :
    ∃ te, _import_files env (_parse_args c).chromium_root (_clean_existing_dir t)
        = .error (bad, te)
      ∧ (∀ r, r ∉ pre →
          lookupFile te.files r = lookupFile (_clean_existing_dir t).files r)
      ∧ main env c t = ([StageTag.cleaner, StageTag.importer], .error te) := by
  obtain ⟨te, h1, h2⟩ := importFiles_error_first_missing env
    (_parse_args c).chromium_root pre bad post (_clean_existing_dir t) hpre hbad
  have h1b : _import_files env (_parse_args c).chromium_root
      (_clean_existing_dir t) = .error (bad, te) := by
    unfold _import_files
    rw [hlist]
    exact h1
  refine ⟨te, h1b, h2, ?_⟩
  unfold main
  rw [h1b]

/-- C6 witness: one target, missing upstream; the run stops at the
importer. -/
theorem c6_missing_upstream_aborts_witness :
    (main envMissing cChromium tEmpty).1
      = [StageTag.cleaner, StageTag.importer] := by
  obtain ⟨te, h1, h2, h3⟩ := c6_missing_upstream_aborts envMissing cChromium
    tEmpty [] pBase [] rfl (by simp) rfl
  rw [h3]

/-- C4: if a patch of the sequence fails to apply, the run aborts right
there: the failing patch is the last one attempted (no subsequent patch is
attempted), the tree keeps the effects of the already-applied patches (no
rollback), and the run ends with a non-zero exit. -/
theorem c4_patch_failure_aborts (env : Env) (c : CmdLine)
    (t t0 t1 : OutTree) (pre : List Nat) (bad : Nat) (post : List Nat)
    (himp : _import_files env (_parse_args c).chromium_root
        (_clean_existing_dir t) = .ok t0)
    (hlist : env.patchFilesOf (_parse_args c).patch_dir = pre ++ bad :: post)
    (hpre : applyPatchFiles env pre t0 = (pre, .ok t1))
    (hbad : env.applyPatch bad t1 = none) :
    _apply_patch_files env (_parse_args c).patch_dir t0
        = (pre ++ [bad], .error (bad, t1))
    ∧ main env c t = ([StageTag.cleaner, StageTag.importer, StageTag.patcher],
        .error t1)
    ∧ exitCode (main env c t).2 = 1 := by
  have hap : _apply_patch_files env (_parse_args c).patch_dir t0
      = (pre ++ [bad], .error (bad, t1)) := by
    unfold _apply_patch_files
    rw [hlist, applyPatchFiles_append_ok env pre (bad :: post) t0 t1 hpre]
    simp only [applyPatchFiles]
    rw [hbad]
  have hmain : main env c t = ([StageTag.cleaner, StageTag.importer,
      StageTag.patcher], .error t1) := by
    rw [main_eq_of_import_ok env c t t0 himp, hap]
  refine ⟨hap, hmain, ?_⟩
  rw [hmain]
  rfl

/-- C4 witness: a single failing patch ends the run at the patcher with the
imported tree kept. -/
theorem c4_patch_failure_aborts_witness :
    main envPatchFail cChromium tEmpty
      = ([StageTag.cleaner, StageTag.importer, StageTag.patcher],
         .error (_clean_existing_dir tEmpty)) :=
  (c4_patch_failure_aborts envPatchFail cChromium tEmpty
      (_clean_existing_dir tEmpty) (_clean_existing_dir tEmpty) [] 0 []
      rfl rfl rfl rfl).2.1

/-- C7: the stages run strictly in the order cleaner, importer, patcher, each
completing fully (or aborting the whole run) before the next starts; the
exit code is 0 exactly on full success and non-zero (1) on the first
unhandled failure. -/
theorem c7_stage_order_and_exit (env : Env) (c : CmdLine) (t : OutTree) :
    ((main env c t).1 = [StageTag.cleaner, StageTag.importer]
      ∨ (main env c t).1
          = [StageTag.cleaner, StageTag.importer, StageTag.patcher])
    ∧ (∀ u, (main env c t).2 = .ok u →
        (main env c t).1 = [StageTag.cleaner, StageTag.importer, StageTag.patcher]
        ∧ exitCode (main env c t).2 = 0
        ∧ ∃ t2, _import_files env (_parse_args c).chromium_root
              (_clean_existing_dir t) = .ok t2
            ∧ (_apply_patch_files env (_parse_args c).patch_dir t2).2 = .ok u)
    ∧ (∀ e, (main env c t).2 = .error e → exitCode (main env c t).2 = 1)
    ∧ ((main env c t).1 = [StageTag.cleaner, StageTag.importer] →
        ∃ pe, _import_files env (_parse_args c).chromium_root
            (_clean_existing_dir t) = .error pe) := by
  cases him : _import_files env (_parse_args c).chromium_root
      (_clean_existing_dir t) with
  | error e =>
    have hm : main env c t
        = ([StageTag.cleaner, StageTag.importer], .error e.2) := by
      unfold main
      rw [him]
    rw [hm]
    refine ⟨Or.inl rfl, ?_, ?_, ?_⟩
    · intro u hu
      cases hu
    · intro e2 _
      rfl
    · intro _
      exact ⟨e, rfl⟩
  | ok t2 =>
    have hm0 := main_eq_of_import_ok env c t t2 him
    cases hap : _apply_patch_files env (_parse_args c).patch_dir t2 with
    | mk att r =>
      cases r with
      | error e2 =>
        have hm : main env c t
            = ([StageTag.cleaner, StageTag.importer, StageTag.patcher],
               .error e2.2) := by
          rw [hm0, hap]
        rw [hm]
        refine ⟨Or.inr rfl, ?_, ?_, ?_⟩
        · intro u hu
          cases hu
        · intro e3 _
          rfl
        · intro h
          simp at h
      | ok t3 =>
        have hm : main env c t
            = ([StageTag.cleaner, StageTag.importer, StageTag.patcher],
               .ok t3) := by
          rw [hm0, hap]
        rw [hm]
        refine ⟨Or.inr rfl, ?_, ?_, ?_⟩
        · intro u hu
          have h5 : (Except.ok t3 : Except OutTree OutTree) = Except.ok u := hu
          have h4 : t3 = u := Except.ok.inj h5
          subst h4
          refine ⟨rfl, rfl, t2, rfl, ?_⟩
          rw [hap]
        · intro e3 he
          cases he
        · intro h
          simp at h

/-- C7 witness: a fully successful run reports all three stages. -/
theorem c7_stage_order_and_exit_witness :
    (main envUp cChromium tEmpty).1
      = [StageTag.cleaner, StageTag.importer, StageTag.patcher] :=
  ((c7_stage_order_and_exit envUp cChromium tEmpty).2.1 treeAfterImport rfl).1

/-- C8: omitting --chromium_root is not rejected at argument parsing (parsing
succeeds, the option stays empty and the other options take their defaults);
the failure surfaces at the first copy of the importer, where the upstream
path fails to resolve. -/
theorem c8_chromium_root_omitted (env : Env) (c : CmdLine) (t : OutTree)
    (p : Path) (rest : List Path)
    (hc : c.chromium_root = none)
    (hl : _find_target_files env = p :: rest) :
    (_parse_args c).chromium_root = none
    ∧ (_parse_args c).output_root = c.output_root.getD _LIBCHROME_ROOT
    ∧ _import_files env (_parse_args c).chromium_root t = .error (p, t)
    ∧ main env c t = ([StageTag.cleaner, StageTag.importer],
        .error (_clean_existing_dir t)) := by
  have h1 : (_parse_args c).chromium_root = none := hc
  have himp : ∀ t2 : OutTree,
      _import_files env (_parse_args c).chromium_root t2 = .error (p, t2) := by
    intro t2
    unfold _import_files
    rw [hl, h1]
    rfl
  have hmain : main env c t = ([StageTag.cleaner, StageTag.importer],
      .error (_clean_existing_dir t)) := by
    unfold main
    rw [himp (_clean_existing_dir t)]
  exact ⟨h1, rfl, himp t, hmain⟩

/-- C8 witness: empty command line, one target; parsing still succeeds with
no upstream root. -/
theorem c8_chromium_root_omitted_witness :
    (_parse_args cNone).chromium_root = none :=
  (c8_chromium_root_omitted envMissing cNone tEmpty pBase [] rfl rfl).1

/-- C10: nothing under libchrome_tools is created, modified or removed when
the pipeline runs: the cleaner keeps every file under it, the blacklist entry
libchrome_tools/* keeps every such tracked path out of the target list, and a
successful import leaves every such file exactly as before. -/
theorem c10_libchrome_tools_untouched (env : Env) (root : Option String)
    (t t' : OutTree) (p q : Path)
    (hp : p = "libchrome_tools/".toList ++ q) :
    lookupFile (_clean_existing_dir t).files p = lookupFile t.files p
    ∧ p ∉ _find_target_files env
    ∧ (_import_files env root (_clean_existing_dir t) = .ok t' →
        lookupFile t'.files p = lookupFile t.files p) := by
  subst hp
  have hk : keptByClean ("libchrome_tools/".toList ++ q) = true := rfl
  have hclean := clean_lookup_preserved t ("libchrome_tools/".toList ++ q) hk
  have hnotin : ("libchrome_tools/".toList ++ q) ∉ _find_target_files env := by
    intro hmem
    unfold _find_target_files at hmem
    have h2 := (List.mem_filter.mp hmem).2
    rw [excluded_under_libchrome_tools q] at h2
    simp at h2
  refine ⟨hclean, hnotin, ?_⟩
  intro himp
  have h3 := importFiles_ok_lookup_not_mem env root (_find_target_files env)
    (_clean_existing_dir t) t' ("libchrome_tools/".toList ++ q) hnotin himp
  rw [h3, hclean]

/-- C10 witness: the file tracked under libchrome_tools survives cleaning. -/
theorem c10_libchrome_tools_untouched_witness :
    lookupFile (_clean_existing_dir tTools).files
        ("libchrome_tools/update_libchrome.py".toList)
      = lookupFile tTools.files
          ("libchrome_tools/update_libchrome.py".toList) :=
  (c10_libchrome_tools_untouched envScenario none tTools tTools
      ("libchrome_tools/update_libchrome.py".toList)
      ("update_libchrome.py".toList) rfl).1

end UpdateLibchrome
